import Mathlib

/-!
A verification development for a small interactive calculator written in Rust
(`src/main.rs`): a character-level tokenizer, a precedence-climbing (Pratt)
parser producing an `Expression` tree, and an evaluator over a variable
environment.

Modelling conventions:
* Rust panics (`panic!`, `unwrap`, `assert_eq!`, `unreachable!`) are modelled
  as `Except Err` error results, with one `Err` constructor per distinct
  failure site.
* `f32` values are modelled as exact rationals extended with signed infinity
  and NaN (`Val`).  All arithmetic exercised by the verified properties is
  exact in `f32` (small integers), so no rounding is modelled; `powf` is
  modelled exactly on integer exponents and on exponents `num/den` whose
  result is rational, and is otherwise unspecified (`Val.nan`).
* The `f32` binding-power constants (`0.2`, `1.1`, …) are modelled as the
  corresponding exact rationals; only their relative order matters and it is
  the same for the `f32` values.
* The parser's recursion (a loop plus self-recursion in the Rust source) is
  modelled with an explicit fuel parameter; the driver supplies fuel that is
  ample for the token count, and running out of fuel is a distinguished error
  that never occurs in any of the verified computations.
-/

set_option maxRecDepth 2000

namespace MathParser

/-- Token: `Token::Atom(char)`, `Token::Op(char)`, `Token::Eof` from the source. -/
inductive Token where
  | Atom : Char → Token
  | Op : Char → Token
  | Eof : Token
deriving DecidableEq, Repr

/-- Rust `char::is_ascii_whitespace`: space, tab, newline, form feed, carriage return. -/
def isAsciiWhitespace (c : Char) : Bool :=
  c == ' ' || c == '\t' || c == '\n' || c == '\x0C' || c == '\r'

/-- The character class `'0'..='9' | 'a'..='z' | 'A'..='Z'` of the tokenizer's match. -/
def isAtomChar (c : Char) : Bool :=
  c.isDigit || c.isAlpha

/-- The per-character classification in `Lexer::new`. -/
def classifyChar (c : Char) : Token :=
  if isAtomChar c then Token.Atom c else Token.Op c

/-- `struct Lexer { tokens: Vec<Token> }`; the vector is stored reversed. -/
structure Lexer where
  tokens : List Token
deriving DecidableEq, Repr

/-- `Lexer::new`: strip ASCII whitespace, classify each character, reverse. -/
def Lexer.new (input : String) : Lexer :=
  ⟨((input.toList.filter (fun c => !isAsciiWhitespace c)).map classifyChar).reverse⟩

/-- `Lexer::next`: `self.tokens.pop().unwrap_or(Token::Eof)` (pop from the end
of the reversed buffer), rendered as explicit state passing. -/
def Lexer.next (l : Lexer) : Token × Lexer :=
  ((l.tokens.getLast?).getD Token.Eof, ⟨l.tokens.dropLast⟩)

/-- `Lexer::peek`: `self.tokens.last().copied().unwrap_or(Token::Eof)`. -/
def Lexer.peek (l : Lexer) : Token :=
  (l.tokens.getLast?).getD Token.Eof

/-- State-passing rendering of `Lexer::peek` (which takes `&mut self` but
performs no mutation): it returns the peeked token together with the state. -/
def Lexer.peekM (l : Lexer) : Token × Lexer :=
  (l.peek, l)

/-- Repeatedly calling `next` until the stream is exhausted; used to state
what token sequence the tokenizer emits, in emission order. -/
def Lexer.drain (l : Lexer) : List Token :=
  match h : l.tokens with
  | [] => []
  | _ :: _ => (l.next).1 :: (l.next).2.drain
termination_by l.tokens.length
decreasing_by
  simp only [Lexer.next, h]
  simp [List.length_dropLast]

theorem Lexer.drain_eq_reverse (l : Lexer) : l.drain = l.tokens.reverse := by
  generalize hn : l.tokens.length = n
  induction n using Nat.strong_induction_on generalizing l with
  | _ n ih =>
    cases l with
    | mk ts =>
      match hts : ts with
      | [] => simp [Lexer.drain]
      | t :: ts' =>
        have hne : t :: ts' ≠ [] := by simp
        rw [Lexer.drain]
        simp only [Lexer.next]
        have hlast : (t :: ts').getLast? = some ((t :: ts').getLast hne) :=
          List.getLast?_eq_getLast _ hne
        have hlen : ((⟨(t :: ts').dropLast⟩ : Lexer)).tokens.length < n := by
          simp only [List.length_dropLast]
          subst hn
          simp
        rw [ih _ hlen _ rfl]
        simp only [hlast, Option.getD_some]
        conv_rhs => rw [← List.dropLast_append_getLast hne]
        simp

/-- Addition on `ℚ`.  `Rat.add` is `@[irreducible]`, which blocks kernel
evaluation of concrete runs, so the model uses this `mkRat` form;
`qadd_eq_add` proves it is the ordinary `+`. -/
def qadd (a b : ℚ) : ℚ :=
  mkRat (a.num * b.den + b.num * a.den) (a.den * b.den)

/-- Subtraction on `ℚ` in reducible form; `qsub_eq_sub` proves it is `-`. -/
def qsub (a b : ℚ) : ℚ :=
  mkRat (a.num * b.den - b.num * a.den) (a.den * b.den)

/-- Multiplication on `ℚ` in reducible form; `qmul_eq_mul` proves it is `*`. -/
def qmul (a b : ℚ) : ℚ :=
  mkRat (a.num * b.num) (a.den * b.den)

/-- Division on `ℚ` in reducible form; `qdiv_eq_div` proves it is `/`
(with the `a / 0 = 0` convention of `ℚ`). -/
def qdiv (a b : ℚ) : ℚ :=
  mkRat (a.num * b.den * b.num.sign) (a.den * b.num.natAbs)

/-- `q ^ n` (natural exponent) in reducible form. -/
def qpowNat (q : ℚ) : ℕ → ℚ
  | 0 => 1
  | n + 1 => qmul (qpowNat q n) q

/-- `q ^ i` (integer exponent) in reducible form. -/
def qpowInt (q : ℚ) : ℤ → ℚ
  | .ofNat n => qpowNat q n
  | .negSucc n => qdiv 1 (qpowNat q (n + 1))

theorem qadd_eq_add (a b : ℚ) : qadd a b = a + b := by
  rw [qadd, Rat.mkRat_eq_div]
  conv_rhs => rw [← Rat.num_div_den a, ← Rat.num_div_den b]
  have ha : (a.den : ℚ) ≠ 0 := by
    exact_mod_cast a.den_nz
  have hb : (b.den : ℚ) ≠ 0 := by
    exact_mod_cast b.den_nz
  field_simp
  try ring

theorem qsub_eq_sub (a b : ℚ) : qsub a b = a - b := by
  rw [qsub, Rat.mkRat_eq_div]
  conv_rhs => rw [← Rat.num_div_den a, ← Rat.num_div_den b]
  have ha : (a.den : ℚ) ≠ 0 := by
    exact_mod_cast a.den_nz
  have hb : (b.den : ℚ) ≠ 0 := by
    exact_mod_cast b.den_nz
  field_simp
  try ring

theorem qmul_eq_mul (a b : ℚ) : qmul a b = a * b := by
  rw [qmul, Rat.mkRat_eq_div]
  conv_rhs => rw [← Rat.num_div_den a, ← Rat.num_div_den b]
  have ha : (a.den : ℚ) ≠ 0 := by
    exact_mod_cast a.den_nz
  have hb : (b.den : ℚ) ≠ 0 := by
    exact_mod_cast b.den_nz
  field_simp
  try ring

theorem qdiv_eq_div (a b : ℚ) : qdiv a b = a / b := by
  rcases lt_trichotomy b.num 0 with hb | hb | hb
  · have hsign : b.num.sign = -1 := Int.sign_eq_neg_one_of_neg hb
    have habsQ : ((b.num.natAbs : ℚ)) = -(b.num : ℚ) := by
      rw [Int.cast_natAbs, abs_of_neg hb]
      push_cast
      ring
    have ha : (a.den : ℚ) ≠ 0 := by
      exact_mod_cast a.den_nz
    have hbd : (b.den : ℚ) ≠ 0 := by
      exact_mod_cast b.den_nz
    have hbn : (b.num : ℚ) ≠ 0 := by
      exact_mod_cast ne_of_lt hb
    rw [qdiv, Rat.mkRat_eq_div, hsign]
    conv_rhs => rw [← Rat.num_div_den a, ← Rat.num_div_den b]
    push_cast [habsQ]
    field_simp
    try ring
  · have hb0 : b = 0 := Rat.zero_iff_num_zero.mpr hb
    rw [hb0, div_zero]
    simp [qdiv, Rat.mkRat_eq_div]
  · have hsign : b.num.sign = 1 := Int.sign_eq_one_of_pos hb
    have habsQ : ((b.num.natAbs : ℚ)) = (b.num : ℚ) := by
      rw [Int.cast_natAbs, abs_of_pos hb]
    have ha : (a.den : ℚ) ≠ 0 := by
      exact_mod_cast a.den_nz
    have hbd : (b.den : ℚ) ≠ 0 := by
      exact_mod_cast b.den_nz
    have hbn : (b.num : ℚ) ≠ 0 := by
      exact_mod_cast ne_of_gt hb
    rw [qdiv, Rat.mkRat_eq_div, hsign]
    conv_rhs => rw [← Rat.num_div_den a, ← Rat.num_div_den b]
    push_cast [habsQ]
    field_simp
    try ring

/-- `enum Expression { Atom(String), Operation(char, Vec<Expression>) }`. -/
inductive Expression where
  | Atom : String → Expression
  | Operation : Char → List Expression → Expression
deriving Repr

/-- One constructor per distinct fatal-failure site of the Rust source. -/
inductive Err where
  /-- `panic!("bad token: ...")` in `parse_expression` (both occurrences). -/
  | badToken : Token → Err
  /-- `panic!("bad op: ...")` in `infix_binding_power`. -/
  | badOp : Char → Err
  /-- the `assert_eq!(lexer.next(), Token::Op(')'))` failing. -/
  | assertFail : Err
  /-- fuel exhaustion of the embedding (never reached with the driver's fuel). -/
  | outOfFuel : Err
  /-- `.unwrap()` on `None` (`operands.first()` / `operands.last()` on an empty vector). -/
  | unwrapNone : Err
  /-- the `unreachable!()` in `is_asign`. -/
  | unreachableHit : Err
  /-- `.expect("Undefined variable ...")` in `eval`. -/
  | undefinedVariable : String → Err
  /-- `panic!("Bad operator: ...")` in `eval`. -/
  | badOperator : Char → Err
deriving DecidableEq, Repr

/-- `infix_binding_power`: the binding-power table.  The `f32` constants are
modelled as the corresponding exact rationals (same relative order). -/
def infix_binding_power (op : Char) : Except Err (ℚ × ℚ) :=
  match op with
  | '=' => .ok (mkRat 2 10, mkRat 1 10)
  | '+' | '-' => .ok (1, mkRat 11 10)
  | '*' | '/' => .ok (2, mkRat 21 10)
  | '^' | '√' => .ok (mkRat 31 10, 3)
  | '.' => .ok (4, mkRat 41 10)
  | _ => .error (.badOp op)

/-- The atom-accumulation loop inside `parse_expression`: while `peek` yields
an `Atom`, consume it and push its character.  The fuel (structural, so the
definition reduces in the kernel) is supplied as `tokens + 1` at the call
site, which is ample: every iteration consumes one token. -/
def parse_atom_run (fuel : Nat) (l : Lexer) (acc : String) : String × Lexer :=
  match fuel with
  | 0 => (acc, l)
  | Nat.succ fuel =>
    match l.peek with
    | .Atom c => parse_atom_run fuel (l.next).2 (acc.push c)
    | .Op _ => (acc, l)
    | .Eof => (acc, l)

/-- The control state of `parse_expression`: either about to parse a
(sub)expression with a minimum binding power, or inside the climbing loop
with an accumulated left-hand side.  The Rust source expresses this as one
recursive function containing a loop; the two constructors are those two
program points. -/
inductive ParseJob where
  | expr : Lexer → ℚ → ParseJob
  | loop : Expression → Lexer → ℚ → ParseJob

/-- `parse_expression(lexer, min_bp)` of the source, as a single function
structurally recursive on fuel (so that it reduces in the kernel).
`ParseJob.expr`: parse a left-hand side — an atom run, a parenthesised
sub-expression whose closing parenthesis is asserted, or fatal `bad token` —
then enter the loop.  `ParseJob.loop`: stop on `Eof`, `Op(')')`, or an
operator whose left binding power is below `min_bp`; otherwise consume the
operator, parse the right-hand side with the operator's right binding power,
and fold into an `Operation` node. -/
def parse_go (fuel : Nat) (job : ParseJob) : Except Err (Expression × Lexer) :=
  match fuel with
  | 0 => .error .outOfFuel
  | Nat.succ fuel =>
    match job with
    | .expr lexer min_bp =>
      match lexer.next with
      | (Token.Atom it, l1) =>
          let r := parse_atom_run (l1.tokens.length + 1) l1 (String.push "" it)
          parse_go fuel (.loop (Expression.Atom r.1) r.2 min_bp)
      | (Token.Op '(', l1) =>
          match parse_go fuel (.expr l1 0) with
          | .error e => .error e
          | .ok (lhs, l2) =>
              match l2.next with
              | (t2, l3) =>
                if t2 = Token.Op ')' then parse_go fuel (.loop lhs l3 min_bp)
                else .error .assertFail
      | (t, _) => .error (.badToken t)
    | .loop lhs lexer min_bp =>
      match lexer.peek with
      | Token.Eof => .ok (lhs, lexer)
      | Token.Op op =>
          if op = ')' then .ok (lhs, lexer)
          else
            match infix_binding_power op with
            | .error e => .error e
            | .ok (l_bp, r_bp) =>
              if l_bp < min_bp then .ok (lhs, lexer)
              else
                match parse_go fuel (.expr (lexer.next).2 r_bp) with
                | .error e => .error e
                | .ok (rhs, l2) =>
                    parse_go fuel (.loop (Expression.Operation op [lhs, rhs]) l2 min_bp)
      | t => .error (.badToken t)

/-- `parse_expression(lexer, min_bp)`: entry point of the climbing parser. -/
def parse_expression (fuel : Nat) (lexer : Lexer) (min_bp : ℚ) :
    Except Err (Expression × Lexer) :=
  parse_go fuel (.expr lexer min_bp)

/-- `Expression::from_str`: run the lexer, then parse with `min_bp = 0`.  The
fuel `2 * tokens + 2` is ample: every recursive step consumes a token. -/
def Expression.from_str (input : String) : Except Err Expression :=
  let lexer := Lexer.new input
  match parse_expression (2 * lexer.tokens.length + 2) lexer 0 with
  | .error e => .error e
  | .ok (e, _) => .ok e

/-- Model of an `f32` value: an exact rational, a signed infinity, or NaN.
Rounding and overflow of finite arithmetic are not modelled; every finite
computation exercised by the verified properties is exact in `f32`. -/
inductive Val where
  | fin : ℚ → Val
  | inf : Bool → Val
  | nan : Val
deriving DecidableEq, Repr

/-- IEEE-style addition on the value model. -/
def Val.add : Val → Val → Val
  | .nan, _ => .nan
  | _, .nan => .nan
  | .inf s, .inf t => if s = t then .inf s else .nan
  | .inf s, .fin _ => .inf s
  | .fin _, .inf t => .inf t
  | .fin a, .fin b => .fin (qadd a b)

/-- IEEE-style subtraction on the value model. -/
def Val.sub : Val → Val → Val
  | .nan, _ => .nan
  | _, .nan => .nan
  | .inf s, .inf t => if s = t then .nan else .inf s
  | .inf s, .fin _ => .inf s
  | .fin _, .inf t => .inf (!t)
  | .fin a, .fin b => .fin (qsub a b)

/-- IEEE-style multiplication on the value model (signed zero not modelled). -/
def Val.mul : Val → Val → Val
  | .nan, _ => .nan
  | _, .nan => .nan
  | .inf s, .inf t => .inf (xor s t)
  | .inf s, .fin q => if q = 0 then .nan else .inf (xor s (decide (q < 0)))
  | .fin q, .inf t => if q = 0 then .nan else .inf (xor (decide (q < 0)) t)
  | .fin a, .fin b => .fin (qmul a b)

/-- IEEE-style division on the value model (signed zero not modelled). -/
def Val.div : Val → Val → Val
  | .nan, _ => .nan
  | _, .nan => .nan
  | .inf _, .inf _ => .nan
  | .inf s, .fin q => .inf (xor s (decide (q < 0)))
  | .fin _, .inf _ => .fin 0
  | .fin a, .fin b =>
      if b = 0 then (if a = 0 then .nan else .inf (decide (a < 0)))
      else .fin (qdiv a b)

/-- Exact `n`-th root of a natural number, by bounded search (`none` when the
root is not a natural number). -/
def natRoot (n k : ℕ) : Option ℕ :=
  (List.range (k + 2)).find? (fun r => r ^ n == k)

/-- Exact `n`-th root of a non-negative rational (`none` when irrational). -/
def ratRoot (n : ℕ) (q : ℚ) : Option ℚ :=
  match natRoot n q.num.toNat, natRoot n q.den with
  | some a, some b => some (mkRat a b)
  | _, _ => none

/-- Model of `f32::powf`.  Exact for a finite base with an integer exponent,
and for exponents `num/den` where the `den`-th root of the base is rational; a
negative base with a non-integer exponent is NaN (as in IEEE `pow`).  The
remaining cases (special operands, irrational results) are not exercised by
the verified properties and are left as NaN. -/
def Val.powf : Val → Val → Val
  | .fin a, .fin b =>
      if b.den = 1 then .fin (qpowInt a b.num)
      else if a < 0 then .nan
      else
        match ratRoot b.den a with
        | some r => .fin (qpowInt r b.num)
        | none => .nan
  | _, _ => .nan

/-- Model of Rust's `str::parse::<f32>` grammar, digit-run helper: the value
of a digit string. -/
def digitsVal (l : List Char) : ℕ :=
  l.foldl (fun a c => 10 * a + (c.toNat - '0'.toNat)) 0

/-- `Count ::= Digit+` of the Rust float grammar. -/
def parseCount (l : List Char) : Option ℕ :=
  if !l.isEmpty && l.all Char.isDigit then some (digitsVal l) else none

/-- Split a character list at the first `e`/`E` (the exponent marker). -/
def splitAtExp (l : List Char) (acc : List Char) : List Char × Option (List Char) :=
  match l with
  | [] => (acc.reverse, none)
  | c :: rest =>
      if c = 'e' || c = 'E' then (acc.reverse, some rest)
      else splitAtExp rest (c :: acc)

/-- The mantissa of the Rust float grammar: `Count '.'? | Count? '.' Count`
(at least one digit overall), valued exactly as a rational. -/
def parseMantissa (l : List Char) : Option ℚ :=
  let intPart := l.takeWhile Char.isDigit
  match l.dropWhile Char.isDigit with
  | [] => if intPart.isEmpty then none else some (digitsVal intPart)
  | '.' :: frac =>
      if frac.all Char.isDigit && !(intPart.isEmpty && frac.isEmpty) then
        some (qadd (digitsVal intPart : ℚ) (qdiv (digitsVal frac : ℚ) (qpowNat 10 frac.length)))
      else none
  | _ => none

/-- `Exp ::= ('e'|'E') Sign? Count` of the Rust float grammar (the marker is
already consumed by `splitAtExp`). -/
def parseExpPart (l : List Char) : Option ℤ :=
  match l with
  | '+' :: rest => (parseCount rest).map (fun n => (n : ℤ))
  | '-' :: rest => (parseCount rest).map (fun n => -(n : ℤ))
  | rest => (parseCount rest).map (fun n => (n : ℤ))

/-- A number (non-special) of the Rust float grammar, after the sign. -/
def parseNumber (neg : Bool) (l : List Char) : Option Val :=
  match splitAtExp l [] with
  | (mant, expPart) =>
    match parseMantissa mant with
    | none => none
    | some m =>
      let signedM := if neg then -m else m
      match expPart with
      | none => some (Val.fin signedM)
      | some ex =>
        match parseExpPart ex with
        | none => none
        | some e => some (Val.fin (qmul signedM (qpowInt 10 e)))

/-- Model of Rust's `str::parse::<f32>`:
`Float ::= Sign? ('inf' | 'infinity' | 'nan' | Number)`, the special words
ASCII-case-insensitively.  The value of a finite literal is its exact
rational value (rounding to `f32` is not modelled; every literal exercised by
the verified properties is exactly representable). -/
def parseF32 (s : String) : Option Val :=
  match s.toList with
  | chars =>
    let sr : Bool × List Char :=
      match chars with
      | '+' :: r => (false, r)
      | '-' :: r => (true, r)
      | r => (false, r)
    let low := sr.2.map Char.toLower
    if low = ['i', 'n', 'f'] ∨ low = ['i', 'n', 'f', 'i', 'n', 'i', 't', 'y'] then
      some (Val.inf sr.1)
    else if low = ['n', 'a', 'n'] then some Val.nan
    else parseNumber sr.1 sr.2

/-- The variable environment `HashMap<String, f32>`, modelled as an
association list with unique keys; lookup is `List.lookup`. -/
def Env : Type := List (String × Val)

/-- `HashMap::insert`: overwrite the binding if the key is present, else append. -/
def envInsert (k : String) (v : Val) : List (String × Val) → List (String × Val)
  | [] => [(k, v)]
  | (k', v') :: rest =>
      if k' = k then (k, v) :: rest else (k', v') :: envInsert k v rest

/-- The operator-combination match at the end of `Expression::eval`. -/
def evalOp (operator : Char) (lhs rhs : Val) : Except Err Val :=
  match operator with
  | '+' => .ok (lhs.add rhs)
  | '-' => .ok (lhs.sub rhs)
  | '*' => .ok (lhs.mul rhs)
  | '/' => .ok (lhs.div rhs)
  | '^' => .ok (lhs.powf rhs)
  | '√' => .ok (lhs.powf ((Val.fin 1).div rhs))
  | op => .error (.badOperator op)

theorem getLastD_eq_or_mem {α : Type} (xs : List α) (x : α) :
    xs.getLastD x = x ∨ xs.getLastD x ∈ xs := by
  induction xs generalizing x with
  | nil => exact Or.inl rfl
  | cons y ys ih =>
      rcases ih y with h | h
      · right
        rw [List.getLastD_cons, h]
        exact List.mem_cons_self y ys
      · right
        rw [List.getLastD_cons]
        exact List.mem_cons_of_mem _ h

/-- Fuelled form of `Expression::eval` (structurally recursive on fuel, so
that it reduces in the kernel): an `Atom` is numerically parsed, falling back
to an environment lookup (fatal `Undefined variable` when absent); an
`Operation` evaluates `operands.first()` then `operands.last()` (modelled as
the head and `getLastD` of the operand list; `unwrap` on an empty vector is a
fatal failure), then combines with `evalOp`. -/
def evalF (fuel : Nat) (e : Expression) (env : List (String × Val)) :
    Except Err Val :=
  match fuel with
  | 0 => .error .outOfFuel
  | Nat.succ fuel =>
    match e with
    | .Atom c =>
        match parseF32 c with
        | some num => .ok num
        | none =>
            match env.lookup c with
            | some v => .ok v
            | none => .error (.undefinedVariable c)
    | .Operation operator operands =>
        match operands with
        | [] => .error .unwrapNone
        | x :: xs =>
            match evalF fuel x env with
            | .error err => .error err
            | .ok lhs =>
                match evalF fuel (xs.getLastD x) env with
                | .error err => .error err
                | .ok rhs => evalOp operator lhs rhs

/-- `Expression::is_asign`: `Some((name, last operand))` exactly on a
top-level `'='` operation whose first operand is an `Atom`; the
`unreachable!()` on a non-`Atom` first operand and the `unwrap`s are fatal. -/
def Expression.is_asign : Expression → Except Err (Option (String × Expression))
  | .Atom _ => .ok none
  | .Operation c operands =>
      if c = '=' then
        match operands.head? with
        | none => .error .unwrapNone
        | some (Expression.Atom s) =>
            match operands.getLast? with
            | none => .error .unwrapNone
            | some last => .ok (some (s, last))
        | some _ => .error .unreachableHit
      else .ok none

/-- The evaluation fuel the driver wrappers supply for a given input line:
one more than the token count.  Ample: the height of any tree the parser
produces from the line is at most the token count (each `Operation` node on
a root-to-leaf path consumes a distinct operator token, and the leaf an atom
token), and `evalF` descends one level per fuel unit. -/
def eval_fuel (input : String) : Nat :=
  (Lexer.new input).tokens.length + 1

/-- One iteration of the driver loop in `main` (minus I/O): parse the line,
intercept assignments via `is_asign` (evaluate the right-hand side and insert
it, printing nothing), otherwise evaluate and return the printed value. -/
def process_line (input : String) (env : List (String × Val)) :
    Except Err (Option Val × List (String × Val)) :=
  match Expression.from_str input with
  | .error e => .error e
  | .ok expr =>
      match expr.is_asign with
      | .error e => .error e
      | .ok (some (var_name, lhs)) =>
          match evalF (eval_fuel input) lhs env with
          | .error e => .error e
          | .ok value => .ok (none, envInsert var_name value env)
      | .ok none =>
          match evalF (eval_fuel input) expr env with
          | .error e => .error e
          | .ok value => .ok (some value, env)

/-- Parse a line and evaluate the resulting tree (no assignment interception):
the composition `evaluate(parse(line), env)` used by the spec's examples. -/
def parse_eval (input : String) (env : List (String × Val)) :
    Except Err Val :=
  match Expression.from_str input with
  | .error e => .error e
  | .ok expr => evalF (eval_fuel input) expr env

/-- The operator set handled by `Expression::eval`'s combination match. -/
def allowedOp (c : Char) : Bool :=
  c == '+' || c == '-' || c == '*' || c == '/' || c == '^' || c == '√'

/-- Every `Operation` node of the tree carries an operator the evaluator's
combination match handles. -/
inductive OpsOK : Expression → Prop where
  | atom : ∀ s, OpsOK (.Atom s)
  | operation : ∀ op operands, allowedOp op = true →
      (∀ e ∈ operands, OpsOK e) → OpsOK (.Operation op operands)

/-- Claim C7: for every input line, the tokenizer removes every ASCII
whitespace character, classifies each remaining character as `Atom` if it is
an ASCII digit or ASCII letter and as `Op` otherwise, never fails (it is a
total function), and the token stream yields these tokens in the original
left-to-right order of the line. -/
theorem tokenizer_spec (s : String) :
    (Lexer.new s).drain =
      (s.toList.filter
          (fun c => !(c == ' ' || c == '\t' || c == '\n' || c == '\x0C' || c == '\r'))).map
        (fun c => if c.isDigit || c.isAlpha then Token.Atom c else Token.Op c) := by
  rw [Lexer.drain_eq_reverse]
  show (((s.toList.filter (fun c => !isAsciiWhitespace c)).map classifyChar).reverse).reverse = _
  rw [List.reverse_reverse]
  rfl

/-- Claim C8: for every token-stream state, `peek` is idempotent and does not
change the state; `next` on a non-empty stream strictly decreases the number
of remaining tokens; and on an empty stream `next` returns the `Eof` sentinel
and leaves the (empty) state unchanged — hence both `peek` and `next` return
`Eof` on every subsequent call. -/
theorem lexer_stream_invariants (l : Lexer) :
    l.peekM.2 = l
    ∧ l.peekM.2.peekM = l.peekM
    ∧ (l.tokens ≠ [] → (l.next).2.tokens.length < l.tokens.length)
    ∧ (l.tokens = [] → l.next = (Token.Eof, l) ∧ l.peek = Token.Eof) := by
  refine ⟨rfl, rfl, ?_, ?_⟩
  · intro h
    cases l with
    | mk ts =>
      cases ts with
      | nil => exact absurd rfl h
      | cons t ts' =>
        simp only [Lexer.next, List.length_dropLast]
        simp
  · intro h
    cases l with
    | mk ts =>
      cases h
      exact ⟨rfl, rfl⟩

/-- Witness for C8 at concrete streams: `next` on the one-token stream
shrinks it, and `next` on the empty stream returns `Eof` with the state
unchanged. -/
theorem lexer_stream_invariants_witness :
    ((Lexer.mk [Token.Atom 'a']).next).2.tokens.length
        < (Lexer.mk [Token.Atom 'a']).tokens.length
    ∧ (Lexer.mk ([] : List Token)).next = (Token.Eof, Lexer.mk []) :=
  ⟨(lexer_stream_invariants (Lexer.mk [Token.Atom 'a'])).2.2.1 (by simp),
   ((lexer_stream_invariants (Lexer.mk [])).2.2.2 rfl).1⟩

/-- Claim C2: subtraction groups left-associatively (`"1-2-3"` parses as
`(1-2)-3` and evaluates to `-4` in the empty environment) and exponentiation
groups right-associatively (`"2^3^2"` parses as `2^(3^2)` and evaluates to
`512`). -/
theorem associativity_spec :
    Expression.from_str "1-2-3"
        = Except.ok (Expression.Operation '-'
            [Expression.Operation '-' [Expression.Atom "1", Expression.Atom "2"],
             Expression.Atom "3"])
    ∧ parse_eval "1-2-3" [] = Except.ok (Val.fin (-4))
    ∧ Expression.from_str "2^3^2"
        = Except.ok (Expression.Operation '^'
            [Expression.Atom "2",
             Expression.Operation '^' [Expression.Atom "3", Expression.Atom "2"]])
    ∧ parse_eval "2^3^2" [] = Except.ok (Val.fin 512) :=
  ⟨rfl, rfl, rfl, rfl⟩

/-- Claim C3: multiplication binds tighter than addition (`"1+2*3"` parses as
`1+(2*3)` and evaluates to `7`) and parentheses override precedence
(`"(1+2)*3"` parses as `(1+2)*3` and evaluates to `9`). -/
theorem precedence_spec :
    Expression.from_str "1+2*3"
        = Except.ok (Expression.Operation '+'
            [Expression.Atom "1",
             Expression.Operation '*' [Expression.Atom "2", Expression.Atom "3"]])
    ∧ parse_eval "1+2*3" [] = Except.ok (Val.fin 7)
    ∧ Expression.from_str "(1+2)*3"
        = Except.ok (Expression.Operation '*'
            [Expression.Operation '+' [Expression.Atom "1", Expression.Atom "2"],
             Expression.Atom "3"])
    ∧ parse_eval "(1+2)*3" [] = Except.ok (Val.fin 9) :=
  ⟨rfl, rfl, rfl, rfl⟩

/-- Claim C4: starting from the empty environment, processing `"x=5"` stores
`5` under `"x"` and prints nothing; processing `"x+1"` in the resulting
environment prints `6` and leaves the environment unchanged, still mapping
`"x"` to `5`. -/
theorem assignment_pipeline :
    process_line "x=5" [] = Except.ok (none, [("x", Val.fin 5)])
    ∧ process_line "x+1" [("x", Val.fin 5)]
        = Except.ok (some (Val.fin 6), [("x", Val.fin 5)])
    ∧ List.lookup "x" [("x", Val.fin 5)] = some (Val.fin 5) :=
  ⟨rfl, rfl, rfl⟩

/-- Claim C5: `is_asign` returns `(name, right operand)` exactly when the
expression is a top-level `Operation('=', [Atom(name), rhs])`; an `Atom` or
an `Operation` whose operator is not `'='` returns no assignment; and an
`Operation('=')` whose left operand is not an `Atom` hits the
`unreachable!()` — a fatal failure, not a clean "none". -/
theorem is_asign_spec :
    (∀ (n : String) (rhs : Expression),
        (Expression.Operation '=' [Expression.Atom n, rhs]).is_asign
          = Except.ok (some (n, rhs)))
    ∧ (∀ s : String, (Expression.Atom s).is_asign = Except.ok none)
    ∧ (∀ (c : Char) (a b : Expression), c ≠ '=' →
        (Expression.Operation c [a, b]).is_asign = Except.ok none)
    ∧ (∀ (a b : Expression), (∀ s, a ≠ Expression.Atom s) →
        (Expression.Operation '=' [a, b]).is_asign = Except.error Err.unreachableHit) := by
  refine ⟨fun n rhs => rfl, fun s => rfl, ?_, ?_⟩
  · intro c a b hc
    simp [Expression.is_asign, hc]
  · intro a b ha
    cases a with
    | Atom s => exact absurd rfl (ha s)
    | Operation op l => rfl

/-- Witness for C5 at concrete expressions: a well-shaped assignment, a
non-`'='` operation, and an `'='` whose left operand is an operation. -/
theorem is_asign_spec_witness :
    (Expression.Operation '=' [Expression.Atom "x", Expression.Atom "5"]).is_asign
        = Except.ok (some ("x", Expression.Atom "5"))
    ∧ (Expression.Operation '+' [Expression.Atom "1", Expression.Atom "2"]).is_asign
        = Except.ok none
    ∧ (Expression.Operation '='
        [Expression.Operation '+' [Expression.Atom "1", Expression.Atom "2"],
         Expression.Atom "5"]).is_asign = Except.error Err.unreachableHit :=
  ⟨is_asign_spec.1 "x" (Expression.Atom "5"),
   is_asign_spec.2.2.1 '+' (Expression.Atom "1") (Expression.Atom "2") (by decide),
   is_asign_spec.2.2.2 (Expression.Operation '+' [Expression.Atom "1", Expression.Atom "2"])
     (Expression.Atom "5") (fun s h => Expression.noConfusion h)⟩

/-- Claim C6: calling the evaluator directly on an
`Operation('=', [Atom(name), rhs])` node never performs an assignment: it
first recursively evaluates the left `Atom` as an ordinary operand (numeric
parse, then environment lookup), so when the name is not numeric and not
bound it fails with the undefined-variable condition. -/
theorem eval_on_assignment_node (fuel : Nat) (name : String) (rhs : Expression)
    (env : List (String × Val))
    (h1 : parseF32 name = none) (h2 : env.lookup name = none) :
    evalF (fuel + 2) (Expression.Operation '=' [Expression.Atom name, rhs]) env
      = Except.error (Err.undefinedVariable name) := by
  simp [evalF, h1, h2]

/-- Witness for C6: `"y"` is not numeric and not bound in the empty
environment; evaluating `Operation('=', [Atom "y", Atom "2"])` directly
fails with the undefined-variable condition. -/
theorem eval_on_assignment_node_witness :
    evalF 2 (Expression.Operation '=' [Expression.Atom "y", Expression.Atom "2"]) []
      = Except.error (Err.undefinedVariable "y") :=
  eval_on_assignment_node 0 "y" (Expression.Atom "2") [] rfl rfl

theorem root_eval_concrete :
    parse_eval "8√3" [] = Except.ok ((Val.fin 8).powf ((Val.fin 1).div (Val.fin 3))) :=
  rfl

/-- Claim C9: `'√'` is evaluated as a generalized root: on
`Operation('√', [l, r])` the evaluator returns the value of `l` raised to
`1 / value of r`; in particular `"8√3"` in the empty environment evaluates to
`8^(1/3)`, the cube root of `8`, which is exactly `2`. -/
theorem root_operator_spec :
    (∀ (fuel : Nat) (l r : Expression) (env : List (String × Val)) (lv rv : Val),
        evalF fuel l env = Except.ok lv → evalF fuel r env = Except.ok rv →
        evalF (fuel + 1) (Expression.Operation '√' [l, r]) env
          = Except.ok (lv.powf ((Val.fin 1).div rv)))
    ∧ parse_eval "8√3" [] = Except.ok ((Val.fin 8).powf ((Val.fin 1).div (Val.fin 3)))
    ∧ (Val.fin 8).powf ((Val.fin 1).div (Val.fin 3)) = Val.fin 2 := by
  refine ⟨?_, root_eval_concrete, rfl⟩
  intro fuel l r env lv rv hl hr
  have hstep : evalF (fuel + 1) (Expression.Operation '√' [l, r]) env
      = (match evalF fuel l env with
         | .error err => .error err
         | .ok lhs =>
             match evalF fuel r env with
             | .error err => .error err
             | .ok rhs => evalOp '√' lhs rhs) := rfl
  rw [hstep, hl, hr]
  rfl

/-- Witness for C9: the generalized-root equation applied at the concrete
tree parsed from `"8√3"`. -/
theorem root_operator_spec_witness :
    evalF 2 (Expression.Operation '√' [Expression.Atom "8", Expression.Atom "3"]) []
      = Except.ok ((Val.fin 8).powf ((Val.fin 1).div (Val.fin 3))) :=
  root_operator_spec.1 1 (Expression.Atom "8") (Expression.Atom "3") [] (Val.fin 8)
    (Val.fin 3) rfl rfl

/-- Claim C10: whenever the numeric parse of an atom's text succeeds — and it
accepts not only digit strings but `"inf"`, `"infinity"`, `"nan"` and
exponent forms like `"1e5"` — the evaluator returns the parsed number without
consulting the environment (the result is the same for every environment);
the environment is consulted only when the numeric parse fails.  Assignment
permits storing a variable under such a name (`"inf=7"` succeeds), but
reading it back yields the parsed number (infinity), never the stored value. -/
theorem atom_eval_spec :
    (∀ (fuel : Nat) (s : String) (v : Val) (env : List (String × Val)),
        parseF32 s = some v →
        evalF (fuel + 1) (Expression.Atom s) env = Except.ok v)
    ∧ (∀ (fuel : Nat) (s : String) (env : List (String × Val)), parseF32 s = none →
        evalF (fuel + 1) (Expression.Atom s) env =
          (match env.lookup s with
           | some v => Except.ok v
           | none => Except.error (Err.undefinedVariable s)))
    ∧ parseF32 "inf" = some (Val.inf false)
    ∧ parseF32 "infinity" = some (Val.inf false)
    ∧ parseF32 "nan" = some Val.nan
    ∧ parseF32 "1e5" = some (Val.fin 100000)
    ∧ process_line "inf=7" [] = Except.ok (none, [("inf", Val.fin 7)])
    ∧ evalF 1 (Expression.Atom "inf") [("inf", Val.fin 7)] = Except.ok (Val.inf false) := by
  refine ⟨?_, ?_, rfl, rfl, rfl, rfl, rfl, rfl⟩
  · intro fuel s v env h
    simp [evalF, h]
  · intro fuel s env h
    simp [evalF, h]

/-- Witness for C10: the numeric-parse-first rule applied at `"inf"` (bound
in the environment, yet never read) and at `"x"` (not numeric, so the
environment is consulted and found empty). -/
theorem atom_eval_spec_witness :
    evalF 1 (Expression.Atom "inf") [("inf", Val.fin 7)] = Except.ok (Val.inf false)
    ∧ evalF 1 (Expression.Atom "x") [] = Except.error (Err.undefinedVariable "x") :=
  ⟨atom_eval_spec.1 0 "inf" (Val.inf false) [("inf", Val.fin 7)] rfl,
   atom_eval_spec.2.1 0 "x" [] rfl⟩

/-- Counterexample to C1 as stated: the parser's binding-power table accepts
`'.'`, which the evaluator does not handle, so the expression parsed from the
input line `"1.5"` does reach the fatal "Bad operator" branch. -/
theorem table_eval_divergence :
    Expression.from_str "1.5"
        = Except.ok (Expression.Operation '.' [Expression.Atom "1", Expression.Atom "5"])
    ∧ parse_eval "1.5" [] = Except.error (Err.badOperator '.') :=
  ⟨rfl, rfl⟩

theorem evalOp_allowed (op : Char) (hop : allowedOp op = true) (l r : Val) :
    ∃ v, evalOp op l r = .ok v := by
  have hop' : op = '+' ∨ op = '-' ∨ op = '*' ∨ op = '/' ∨ op = '^' ∨ op = '√' := by
    simpa [allowedOp, or_assoc] using hop
  rcases hop' with h1 | h1 | h1 | h1 | h1 | h1 <;> subst h1 <;> exact ⟨_, rfl⟩

/-- Claim C1 (amended): the binding-power table and the evaluator's operator
set diverge on `'='` and `'.'`, so an expression produced by `parse` can
reach the fatal "Bad operator" branch; the evaluator avoids that branch
exactly on trees all of whose operation nodes use one of
`+ - * / ^ √` — for such trees, no amount of fuel ever yields the
bad-operator failure. -/
theorem eval_no_bad_operator :
    ∀ (fuel : Nat) (e : Expression) (env : List (String × Val)) (c : Char),
      OpsOK e → evalF fuel e env ≠ Except.error (Err.badOperator c) := by
  intro fuel
  induction fuel with
  | zero =>
    intro e env c _ h
    simp [evalF] at h
  | succ fuel ih =>
    intro e env c hok
    cases hok with
    | atom s =>
      intro h
      simp only [evalF] at h
      revert h
      split
      · simp
      · split
        · simp
        · simp
    | operation op operands hop hall =>
      cases operands with
      | nil =>
        intro h
        simp [evalF] at h
      | cons x xs =>
        have hxok : OpsOK x := hall x (List.mem_cons_self x xs)
        have hlok : OpsOK (xs.getLastD x) := by
          rcases getLastD_eq_or_mem xs x with h | h
          · rw [h]
            exact hxok
          · exact hall _ (List.mem_cons_of_mem x h)
        intro h
        simp only [evalF] at h
        revert h
        cases hx : evalF fuel x env with
        | error err =>
          simp only []
          intro h
          simp at h
          exact ih x env c hxok (hx.trans (by rw [h]))
        | ok lhs =>
          simp only []
          cases hl : evalF fuel (xs.getLastD x) env with
          | error err =>
            simp only []
            intro h
            simp at h
            exact ih _ env c hlok (hl.trans (by rw [h]))
          | ok rhs =>
            simp only []
            obtain ⟨v, hv⟩ := evalOp_allowed op hop lhs rhs
            rw [hv]
            intro h
            exact Except.noConfusion h

/-- Witness for C1 (amended): a `'+'` tree (all operators in the evaluator's
set) never evaluates to the bad-operator failure. -/
theorem eval_no_bad_operator_witness :
    evalF 2 (Expression.Operation '+' [Expression.Atom "1", Expression.Atom "2"]) []
      ≠ Except.error (Err.badOperator '.') :=
  eval_no_bad_operator 2
    (Expression.Operation '+' [Expression.Atom "1", Expression.Atom "2"]) [] '.'
    (OpsOK.operation '+' [Expression.Atom "1", Expression.Atom "2"] rfl
      (fun e he => by
        rcases List.mem_cons.mp he with h | h
        · subst h
          exact OpsOK.atom "1"
        · rcases List.mem_cons.mp h with h2 | h2
          · subst h2
            exact OpsOK.atom "2"
          · cases h2))

end MathParser
